import Mathlib

/-!
A shallow embedding of `task_queue.py`: a staged, bounded, fault-tolerant
task pipeline.  Pure data operations (the Pipeline failure aggregator, the
bounded queue, `setTaskCount`, `chain`) are embedded as Lean functions;
the concurrent worker-pool lifecycle (`ThreadPool._worker`,
`ThreadPool.taskFinished`, `CurrentThread.run`) is embedded as a
small-step transition relation over an explicit pool state, with ghost
fields recording the observable history (invocations, decrements,
sentinel pushes, forwards).
-/

namespace TaskQueue

/-! ## Pipeline (failure aggregator), from `class Pipeline` -/

/-- One recorded failure: `(stage_name, index, exception)` where the
exception is abstracted to its type name (`type(exc).__name__`) and its
message (`str(exc)`). -/
structure ExcEntry where
  stage : String
  index : Int
  kind : String
  msg : String
  deriving DecidableEq, Repr

/-- The single-quote character, as used by the summary format string. -/
def sq : String := String.singleton (Char.ofNat 39)

/-- `Pipeline.add_exception`: append to the exception list. -/
def addException (p : List ExcEntry) (e : ExcEntry) : List ExcEntry :=
  p ++ [e]

/-- `Pipeline.has_exceptions`: `len(self.exceptions) > 0`. -/
def hasExceptions (p : List ExcEntry) : Bool :=
  decide (0 < p.length)

/-- The middle part of one summary line:
`Stage '<stage>', task <idx>: <kind>: <msg>`. -/
def entryCore (e : ExcEntry) : String :=
  "Stage " ++ sq ++ e.stage ++ sq ++ ", task " ++ toString e.index ++ ": "
    ++ e.kind ++ ": " ++ e.msg

/-- One summary line of `Pipeline.get_exception_summary`:
`f"  - Stage '\x7bstage\x7d', task \x7bidx\x7d: ...\n"`. -/
def entryLine (e : ExcEntry) : String :=
  "  - " ++ entryCore e ++ "\n"

/-- `Pipeline.get_exception_summary`: header with the failure count, the
first 5 entries, and a trailer when more than 5 failures exist. -/
def getExceptionSummary (p : List ExcEntry) : String :=
  if p.length = 0 then "No exceptions"
  else
    let msg := toString p.length ++ " task(s) failed in pipeline:\n"
    let msg := msg ++ String.join ((p.take 5).map entryLine)
    if 5 < p.length then
      msg ++ "  ... and " ++ toString (p.length - 5) ++ " more errors\n"
    else msg

/-- Outcome of `Stage.wait` / `StageCurrent.run` after the pool drained:
either a normal return or a raised `RuntimeError(summary) from cause`. -/
inductive WaitResult where
  | ok
  | failure (summary : String) (cause : ExcEntry)
  deriving DecidableEq, Repr

/-- The drain-time check shared by `Stage.wait` and `StageCurrent.run`:
if the pipeline has exceptions, raise `RuntimeError` carrying the summary,
with the first recorded exception (`self.pipeline.exceptions[0][2]`) as
cause; otherwise return normally. -/
def stageWaitCheck (p : List ExcEntry) : WaitResult :=
  if hasExceptions p then
    match p with
    | e :: _ => .failure (getExceptionSummary p) e
    | [] => .ok
  else .ok

/-- `Stage.wait` as a state transformer on the pipeline: it only reads the
exception list, never writes it, and produces the drain-time outcome. -/
def stageWait (p : List ExcEntry) : WaitResult × List ExcEntry :=
  (stageWaitCheck p, p)

/-! ## Errors raised synchronously at the API surface -/

/-- Structural errors (`RuntimeError` raised at the offending call). -/
inductive TQError where
  | invalidState
  deriving DecidableEq, Repr

/-! ## BoundedTaskQueue, from `class BoundedTaskQueue` -/

/-- `BoundedTaskQueue`: a FIFO of tasks with a capacity; the underlying
`queue.Queue(maxsize=capacity)` is unbounded whenever `capacity <= 0`.
`everPushed` is a ghost flag recording whether any task was ever pushed. -/
structure BTQueue (τ : Type) where
  capacity : Int
  tasks : List τ
  everPushed : Bool
  deriving DecidableEq, Repr

/-- `BoundedTaskQueue.__init__(capacity)`: fresh empty queue. -/
def BTQueue.new (τ : Type) (capacity : Int) : BTQueue τ :=
  { capacity := capacity, tasks := [], everPushed := false }

/-- `BoundedTaskQueue.setCapacity`: raise `RuntimeError` when
`not self.tasks.empty()`; otherwise install a fresh `queue.Queue` with the
new capacity.  The ghost `everPushed` flag is untouched by the source. -/
def BTQueue.setCapacity (q : BTQueue τ) (c : Int) : Except TQError (BTQueue τ) :=
  if q.tasks.isEmpty = false then .error .invalidState
  else .ok { capacity := c, tasks := [], everPushed := q.everPushed }

/-- `BoundedTaskQueue.pushTask`: append (the effect once the producer is
admitted; see `BTQueue.pushWouldBlock` for the blocking condition). -/
def BTQueue.pushTask (q : BTQueue τ) (t : τ) : BTQueue τ :=
  { capacity := q.capacity, tasks := q.tasks ++ [t], everPushed := true }

/-- `queue.Queue.put` blocks exactly while `maxsize > 0` and
`qsize >= maxsize`. -/
def BTQueue.pushWouldBlock (q : BTQueue τ) : Bool :=
  decide (0 < q.capacity) && decide (q.capacity ≤ (q.tasks.length : Int))

/-- `BoundedTaskQueue.popTask`: remove and return the oldest task;
`none` models the blocked state on an empty queue. -/
def BTQueue.popTask (q : BTQueue τ) : Option (τ × BTQueue τ) :=
  match q.tasks with
  | [] => none
  | t :: rest =>
      some (t, { capacity := q.capacity, tasks := rest, everPushed := q.everPushed })

/-! ## setTaskCount, from `ThreadPoolEx.setTaskCount` / `CurrentThreadEx.setTaskCount` -/

/-- `setTaskCount(n)`: the source performs the bare assignment
`self.task_counter[0] = n` with no validation; the `Except` channel
records that no exception is raised for any argument. -/
def setTaskCountModel (n : Int) : Except TQError Int :=
  .ok n

/-! ## Worker-pool lifecycle, from `ThreadPool` / `CurrentThread`

A queued closure is either a wrapper for a pushed index
(`lambda i=index: self._run(i)`) or the no-op sentinel (`lambda: None`)
pushed by `stopAll`. -/

inductive QTask where
  | real (index : Int)
  | sentinel
  deriving DecidableEq, Repr

/-- The shared state of one stage's pool, the producers feeding it, and
ghost history fields.  Concrete source state: `queue` (the stage's
`BoundedTaskQueue` contents), `counter` (`task_counter[0]`), `stopped`
(`ThreadPool.stop` / `CurrentThread.stop`).  Worker bookkeeping: `idle`
workers are at the loop head about to pop, `popped` holds the task of
each worker between its pop and its check of the stop flag, `executing`
holds the task of each worker past that check, `exited` counts workers
that broke out of the loop.  Ghost history: `pending` are the producer
pushes not yet performed, `executed` the indices on which `func` was
invoked, `errors` the indices on which `func` raised, `forwarded` the
indices passed to `next.push`, `dropped` the tasks discarded by a worker
that popped while stopped, `decrements` the number of `taskFinished`
decrements, `sentinelsPushed` and `stopTransitions` the sentinel pushes
and false-to-true transitions of the stop flag performed by `stopAll`. -/
structure PoolState where
  pending : List Int
  queue : List QTask
  counter : Int
  stopped : Bool
  idle : Nat
  popped : Multiset QTask
  executing : Multiset QTask
  exited : Nat
  executed : Multiset Int
  errors : Multiset Int
  forwarded : Multiset Int
  dropped : Multiset QTask
  decrements : Nat
  sentinelsPushed : Nat
  stopTransitions : Nat
  deriving DecidableEq

/-- `ThreadPool.stopAll` (and `CurrentThread.stopAll` with `nw = 1`): if
the stop flag is not yet set, set it and push one sentinel closure per
worker onto the task queue. -/
def stopAll (nw : Nat) (s : PoolState) : PoolState :=
  if s.stopped then s
  else
    { s with
      stopped := true
      queue := s.queue ++ List.replicate nw QTask.sentinel
      sentinelsPushed := s.sentinelsPushed + nw
      stopTransitions := s.stopTransitions + 1 }

/-- `taskFinished`: under the completion lock, decrement the counter; if
it reached zero, run `stopAll` and broadcast the completion condition
(the broadcast itself has no state effect in this model). -/
def taskFinished (nw : Nat) (s : PoolState) : PoolState :=
  let s1 := { s with counter := s.counter - 1, decrements := s.decrements + 1 }
  if s1.counter = 0 then stopAll nw s1 else s1

/-- The effects of running the wrapper closure `Stage._run(i)` for index
`i`, given whether `func` raises on `i` (`fe i`) and whether a downstream
stage is linked (`hasNext`): invoke `func(i)`; on failure record the
error; unconditionally forward `i` downstream.  The worker then runs
`taskFinished` and returns to the loop head. -/
def runWrapper (fe : Int → Bool) (hasNext : Bool) (nw : Nat) (i : Int)
    (s : PoolState) : PoolState :=
  taskFinished nw
    { s with
      executing := s.executing.erase (QTask.real i)
      idle := s.idle + 1
      executed := i ::ₘ s.executed
      errors := if fe i then i ::ₘ s.errors else s.errors
      forwarded := if hasNext then i ::ₘ s.forwarded else s.forwarded }

/-- One interleaved step of the system: a producer push, or one of the
worker-loop transitions of `ThreadPool._worker` / `CurrentThread.run`
(pop; check the stop flag and exit; check the stop flag and proceed;
execute a wrapper closure; execute a sentinel closure).  `fe i` tells
whether the user function raises on index `i`, `hasNext` whether a
downstream stage is linked, and `nw` is the number of workers. -/
inductive Step (fe : Int → Bool) (hasNext : Bool) (nw : Nat) :
    PoolState → PoolState → Prop
  | push (s : PoolState) (i : Int) (rest : List Int)
      (hp : s.pending = i :: rest) :
      Step fe hasNext nw s
        { s with pending := rest, queue := s.queue ++ [QTask.real i] }
  | pop (s : PoolState) (t : QTask) (rest : List QTask)
      (hidle : 0 < s.idle) (hq : s.queue = t :: rest) :
      Step fe hasNext nw s
        { s with queue := rest, idle := s.idle - 1, popped := t ::ₘ s.popped }
  | checkExit (s : PoolState) (t : QTask)
      (ht : t ∈ s.popped) (hstop : s.stopped = true) :
      Step fe hasNext nw s
        { s with popped := s.popped.erase t, exited := s.exited + 1,
                 dropped := t ::ₘ s.dropped }
  | checkRun (s : PoolState) (t : QTask)
      (ht : t ∈ s.popped) (hstop : s.stopped = false) :
      Step fe hasNext nw s
        { s with popped := s.popped.erase t, executing := t ::ₘ s.executing }
  | execReal (s : PoolState) (i : Int)
      (ht : QTask.real i ∈ s.executing) :
      Step fe hasNext nw s (runWrapper fe hasNext nw i s)
  | execSentinel (s : PoolState)
      (ht : QTask.sentinel ∈ s.executing) :
      Step fe hasNext nw s
        (taskFinished nw
          { s with executing := s.executing.erase QTask.sentinel,
                   idle := s.idle + 1 })

/-- Reflexive-transitive closure of `Step`: the states reachable by any
interleaving of the producer and the workers. -/
def Reach (fe : Int → Bool) (hasNext : Bool) (nw : Nat) :
    PoolState → PoolState → Prop :=
  Relation.ReflTransGen (Step fe hasNext nw)

/-- The state after `setTaskCount(ps.length)` with the producer about to
push the indices `ps` in order, `nw` idle workers, and nothing yet run. -/
def initState (ps : List Int) (nw : Nat) : PoolState :=
  { pending := ps, queue := [], counter := (ps.length : Int), stopped := false,
    idle := nw, popped := 0, executing := 0, exited := 0, executed := 0,
    errors := 0, forwarded := 0, dropped := 0, decrements := 0,
    sentinelsPushed := 0, stopTransitions := 0 }

/-- The condition under which `wait()` (`wait_for(counter == 0)` followed
by joining every worker) or the foreground `run()` has returned. -/
def Drained (nw : Nat) (s : PoolState) : Prop :=
  s.counter = 0 ∧ s.exited = nw

/-- The indices carried by the wrapper tasks of a multiset of tasks. -/
def realIdx : QTask → Multiset Int
  | .real i => {i}
  | .sentinel => 0

/-- Multiset of indices of the wrapper tasks in `m`. -/
def mReals (m : Multiset QTask) : Multiset Int :=
  m.bind realIdx

theorem mReals_zero : mReals 0 = 0 := rfl

theorem mReals_cons (t : QTask) (m : Multiset QTask) :
    mReals (t ::ₘ m) = realIdx t + mReals m := by
  simp [mReals]

theorem mReals_coe_cons (t : QTask) (l : List QTask) :
    mReals ↑(t :: l) = realIdx t + mReals ↑l := by
  simpa using mReals_cons t ↑l

theorem mReals_coe_append (l₁ l₂ : List QTask) :
    mReals ↑(l₁ ++ l₂) = mReals ↑l₁ + mReals ↑l₂ := by
  induction l₁ with
  | nil => simp [mReals]
  | cons t l ih => simp [List.cons_append, mReals_coe_cons, ih, add_assoc]

theorem mReals_replicate_sentinel (n : Nat) :
    mReals ↑(List.replicate n QTask.sentinel) = 0 := by
  induction n with
  | zero => rfl
  | succ k ih => simpa [List.replicate_succ, mReals_coe_cons, realIdx] using ih

theorem mReals_erase {t : QTask} {m : Multiset QTask} (h : t ∈ m) :
    mReals m = realIdx t + mReals (m.erase t) := by
  conv_lhs => rw [← Multiset.cons_erase h]
  exact mReals_cons t (m.erase t)

/-- Fields of the pool state that `taskFinished` never touches. -/
theorem tf_untouched (nw : Nat) (s : PoolState) :
    (taskFinished nw s).pending = s.pending ∧
    (taskFinished nw s).idle = s.idle ∧
    (taskFinished nw s).popped = s.popped ∧
    (taskFinished nw s).executing = s.executing ∧
    (taskFinished nw s).exited = s.exited ∧
    (taskFinished nw s).executed = s.executed ∧
    (taskFinished nw s).errors = s.errors ∧
    (taskFinished nw s).forwarded = s.forwarded ∧
    (taskFinished nw s).dropped = s.dropped := by
  simp only [taskFinished, stopAll]
  split_ifs <;> simp

theorem tf_counter (nw : Nat) (s : PoolState) :
    (taskFinished nw s).counter = s.counter - 1 := by
  simp only [taskFinished, stopAll]
  split_ifs <;> simp

theorem tf_decrements (nw : Nat) (s : PoolState) :
    (taskFinished nw s).decrements = s.decrements + 1 := by
  simp only [taskFinished, stopAll]
  split_ifs <;> simp

theorem tf_queue_reals (nw : Nat) (s : PoolState) :
    mReals ↑(taskFinished nw s).queue = mReals ↑s.queue := by
  simp only [taskFinished, stopAll]
  split_ifs <;> simp [mReals_coe_append, mReals_replicate_sentinel]

theorem tf_stopped_mono (nw : Nat) (s : PoolState) (h : s.stopped = true) :
    (taskFinished nw s).stopped = true := by
  simp only [taskFinished, stopAll]
  split_ifs <;> simp_all

theorem tf_not_stopped (nw : Nat) (s : PoolState)
    (h : (taskFinished nw s).stopped = false) :
    s.stopped = false ∧ (taskFinished nw s).queue = s.queue := by
  simp only [taskFinished, stopAll] at h ⊢
  split_ifs at h ⊢ <;> simp_all

theorem tf_stop_trans (nw : Nat) (s : PoolState)
    (h : s.stopTransitions = if s.stopped then 1 else 0) :
    (taskFinished nw s).stopTransitions =
      if (taskFinished nw s).stopped then 1 else 0 := by
  simp only [taskFinished, stopAll]
  split_ifs <;> simp_all

theorem tf_sent_pushed (nw : Nat) (s : PoolState)
    (h : s.sentinelsPushed = if s.stopped then nw else 0) :
    (taskFinished nw s).sentinelsPushed =
      if (taskFinished nw s).stopped then nw else 0 := by
  simp only [taskFinished, stopAll]
  split_ifs <;> simp_all

/-- The inductive invariant of the pool model.  `conserve` is the
conservation of pushed indices across the pipeline stations; `counter_eq`
and `decr_eq` tie `task_counter[0]` to the history; the sentinel clauses
say sentinels appear only after the stop transition and are never
executed; `stop_trans` / `sent_pushed` say the stop flag flips at most
once and pushes exactly one sentinel per worker when it does;
`fwd_eq` says forwarding tracks invocation exactly. -/
structure Inv (ps : List Int) (hasNext : Bool) (nw : Nat) (s : PoolState) : Prop where
  conserve : (↑ps : Multiset Int) =
    ↑s.pending + mReals ↑s.queue + mReals s.popped + mReals s.executing
      + s.executed + mReals s.dropped
  counter_eq : s.counter = (ps.length : Int) - (s.decrements : Int)
  decr_eq : s.decrements = Multiset.card s.executed
  no_sent_exec : QTask.sentinel ∉ s.executing
  pre_stop_queue : s.stopped = false → QTask.sentinel ∉ s.queue
  pre_stop_popped : s.stopped = false → QTask.sentinel ∉ s.popped
  stop_trans : s.stopTransitions = if s.stopped then 1 else 0
  sent_pushed : s.sentinelsPushed = if s.stopped then nw else 0
  exited_stop : 0 < s.exited → s.stopped = true
  fwd_eq : s.forwarded = if hasNext then s.executed else 0

theorem inv_init (ps : List Int) (hasNext : Bool) (nw : Nat) :
    Inv ps hasNext nw (initState ps nw) := by
  constructor <;> simp [initState, mReals]

theorem realIdx_real (i : Int) : realIdx (QTask.real i) = ({i} : Multiset Int) :=
  rfl

theorem mReals_real_singleton (i : Int) :
    mReals ↑[QTask.real i] = ({i} : Multiset Int) := by
  simp [mReals, realIdx]

theorem inv_step {fe : Int → Bool} {hasNext : Bool} {nw : Nat}
    {ps : List Int} {s s' : PoolState}
    (hinv : Inv ps hasNext nw s) (hstep : Step fe hasNext nw s s') :
    Inv ps hasNext nw s' := by
  obtain ⟨conserve, counter_eq, decr_eq, no_sent_exec, pre_stop_queue,
    pre_stop_popped, stop_trans, sent_pushed, exited_stop, fwd_eq⟩ := hinv
  cases hstep with
  | push i rest hp =>
      refine ⟨?_, counter_eq, decr_eq, no_sent_exec, ?_, pre_stop_popped,
        stop_trans, sent_pushed, exited_stop, fwd_eq⟩
      · dsimp only
        rw [conserve, hp, mReals_coe_append, mReals_real_singleton,
          ← Multiset.cons_coe, ← Multiset.singleton_add]
        abel
      · intro hstop hmem
        rcases List.mem_append.1 hmem with h | h
        · exact pre_stop_queue hstop h
        · simp at h
  | pop t rest hidle hq =>
      refine ⟨?_, counter_eq, decr_eq, no_sent_exec, ?_, ?_,
        stop_trans, sent_pushed, exited_stop, fwd_eq⟩
      · dsimp only
        rw [conserve, hq, mReals_coe_cons, mReals_cons]
        abel
      · intro hstop hmem
        exact pre_stop_queue hstop (hq ▸ List.mem_cons_of_mem t hmem)
      · intro hstop hmem
        rcases Multiset.mem_cons.1 hmem with h | h
        · subst h
          exact pre_stop_queue hstop (hq ▸ List.mem_cons_self _ _)
        · exact pre_stop_popped hstop h
  | checkExit t ht hstop =>
      refine ⟨?_, counter_eq, decr_eq, no_sent_exec, ?_, ?_,
        stop_trans, sent_pushed, ?_, fwd_eq⟩
      · dsimp only
        rw [conserve, mReals_erase ht, mReals_cons]
        abel
      · intro h
        exact pre_stop_queue h
      · intro h hmem
        exact pre_stop_popped h (Multiset.mem_of_mem_erase hmem)
      · intro _
        exact hstop
  | checkRun t ht hstop =>
      refine ⟨?_, counter_eq, decr_eq, ?_, pre_stop_queue, ?_,
        stop_trans, sent_pushed, exited_stop, fwd_eq⟩
      · dsimp only
        rw [conserve, mReals_erase ht, mReals_cons]
        abel
      · intro hmem
        rcases Multiset.mem_cons.1 hmem with h | h
        · subst h
          exact pre_stop_popped hstop ht
        · exact no_sent_exec h
      · intro h hmem
        exact pre_stop_popped h (Multiset.mem_of_mem_erase hmem)
  | execReal i ht =>
      obtain ⟨hpend, hidle, hpop, hexec, hexit, hexed, herr, hfwd, hdrop⟩ :=
        tf_untouched nw
          { s with
            executing := s.executing.erase (QTask.real i)
            idle := s.idle + 1
            executed := i ::ₘ s.executed
            errors := if fe i then i ::ₘ s.errors else s.errors
            forwarded := if hasNext then i ::ₘ s.forwarded else s.forwarded }
      constructor
      · rw [runWrapper, hpend, hpop, hexec, hexed, hdrop, tf_queue_reals]
        dsimp only
        rw [conserve, mReals_erase ht, realIdx_real, ← Multiset.singleton_add]
        abel
      · rw [runWrapper, tf_counter, tf_decrements]
        dsimp only
        rw [counter_eq]
        push_cast
        ring
      · rw [runWrapper, tf_decrements, hexed]
        dsimp only
        rw [decr_eq]
        simp
      · rw [runWrapper, hexec]
        dsimp only
        intro he
        exact no_sent_exec (Multiset.mem_of_mem_erase he)
      · intro hstop
        rcases tf_not_stopped nw _ (by rw [runWrapper] at hstop; exact hstop)
          with ⟨hs0, hqeq⟩
        rw [runWrapper, hqeq]
        dsimp only at hs0 ⊢
        exact pre_stop_queue hs0
      · intro hstop
        rcases tf_not_stopped nw _ (by rw [runWrapper] at hstop; exact hstop)
          with ⟨hs0, _⟩
        rw [runWrapper, hpop]
        dsimp only at hs0
        exact pre_stop_popped hs0
      · rw [runWrapper]
        exact tf_stop_trans nw _ stop_trans
      · rw [runWrapper]
        exact tf_sent_pushed nw _ sent_pushed
      · rw [runWrapper, hexit]
        dsimp only
        intro h
        exact tf_stopped_mono nw _ (exited_stop h)
      · rw [runWrapper, hfwd, hexed]
        dsimp only
        rw [fwd_eq]
        cases hasNext <;> simp
  | execSentinel ht =>
      exact absurd ht no_sent_exec

theorem inv_reach {fe : Int → Bool} {hasNext : Bool} {nw : Nat}
    {ps : List Int} {s : PoolState}
    (h : Reach fe hasNext nw (initState ps nw) s) : Inv ps hasNext nw s := by
  induction h with
  | refl => exact inv_init ps hasNext nw
  | tail _ hstep ih => exact inv_step ih hstep

/-- In any reachable state the invocation history is contained in the
multiset of declared pushes. -/
theorem executed_le {ps : List Int} {hasNext : Bool} {nw : Nat} {s : PoolState}
    (inv : Inv ps hasNext nw s) : s.executed ≤ (↑ps : Multiset Int) := by
  rw [inv.conserve]
  exact (Multiset.le_add_left _ _).trans (Multiset.le_add_right _ _)

/-- Once `wait()`/`run()` has returned, the multiset of invoked indices
equals the multiset of pushed indices and the counter was decremented
once per push. -/
theorem drained_executed {fe : Int → Bool} {hasNext : Bool} {nw : Nat}
    {ps : List Int} {s : PoolState}
    (h : Reach fe hasNext nw (initState ps nw) s) (hd : Drained nw s) :
    s.executed = (↑ps : Multiset Int) ∧ s.decrements = ps.length := by
  have inv := inv_reach h
  have hdec : s.decrements = ps.length := by
    have hc := inv.counter_eq
    rw [hd.1] at hc
    omega
  have hcard : Multiset.card s.executed = ps.length := by
    rw [← inv.decr_eq, hdec]
  refine ⟨?_, hdec⟩
  refine Multiset.eq_of_le_of_card_le (executed_le inv) ?_
  rw [Multiset.coe_card, hcard]

/-- C1. Exactly-once accounting: for a stage configured with
`setTaskCount(ps.length)` and exactly the pushes `ps`, in every state in
which `wait()` (background `Stage`) or `run()` (`StageCurrent`, `nw = 1`)
has returned, the user function was invoked exactly once per pushed
index — whatever subset of invocations raised (`fe` arbitrary) — and
`remaining_count` was decremented exactly once per submitted task. -/
theorem exactly_once_accounting
    (fe : Int → Bool) (hasNext : Bool) (nw : Nat) (ps : List Int) (s : PoolState)
    (h : Reach fe hasNext nw (initState ps nw) s) (hd : Drained nw s) :
    s.executed = (↑ps : Multiset Int) ∧ s.decrements = ps.length :=
  drained_executed h hd

/-- C2. Unconditional forwarding / downstream conservation: with a
downstream stage linked, once the stage has drained the multiset of
indices forwarded to `next.push` equals the multiset of indices pushed
to this stage, whichever invocations raised. -/
theorem downstream_conservation
    (fe : Int → Bool) (nw : Nat) (ps : List Int) (s : PoolState)
    (h : Reach fe true nw (initState ps nw) s) (hd : Drained nw s) :
    s.forwarded = (↑ps : Multiset Int) := by
  have inv := inv_reach h
  have hfwd := inv.fwd_eq
  rw [if_pos rfl] at hfwd
  rw [hfwd]
  exact (drained_executed h hd).1

/-- Case analysis of `taskFinished` for the shutdown claim: either the
stop flag, the transition count and the sentinel count are all untouched,
or the decrement reached zero from the not-stopped state and the call
performed the single false-to-true transition pushing `nw` sentinels. -/
theorem tf_stop_cases (nw : Nat) (s : PoolState) :
    ((taskFinished nw s).stopped = s.stopped ∧
      (taskFinished nw s).stopTransitions = s.stopTransitions ∧
      (taskFinished nw s).sentinelsPushed = s.sentinelsPushed) ∨
    (s.stopped = false ∧ (taskFinished nw s).stopped = true ∧
      (taskFinished nw s).counter = 0 ∧
      (taskFinished nw s).stopTransitions = s.stopTransitions + 1 ∧
      (taskFinished nw s).sentinelsPushed = s.sentinelsPushed + nw) := by
  simp only [taskFinished, stopAll]
  split_ifs <;> simp_all

/-- C6. Shutdown signalling: (i) in every drained state the stop flag
performed exactly one false-to-true transition and exactly `nw` sentinel
closures were pushed; (ii) along every single step of the system, either
the stop flag, the transition count and the sentinel count are untouched,
or that step is a `taskFinished` decrement that reached zero, flipped the
flag false-to-true and pushed exactly `nw` sentinels. -/
theorem shutdown_signalling (fe : Int → Bool) (hasNext : Bool) (nw : Nat) :
    (∀ (ps : List Int) (s : PoolState),
        Reach fe hasNext nw (initState ps nw) s → Drained nw s → 1 ≤ nw →
        s.stopTransitions = 1 ∧ s.sentinelsPushed = nw) ∧
    (∀ s s' : PoolState, Step fe hasNext nw s s' →
        (s'.stopped = s.stopped ∧ s'.stopTransitions = s.stopTransitions ∧
          s'.sentinelsPushed = s.sentinelsPushed) ∨
        (s.stopped = false ∧ s'.stopped = true ∧ s'.counter = 0 ∧
          s'.stopTransitions = s.stopTransitions + 1 ∧
          s'.sentinelsPushed = s.sentinelsPushed + nw ∧
          s'.decrements = s.decrements + 1)) := by
  constructor
  · intro ps s h hd hnw
    have inv := inv_reach h
    have hstop : s.stopped = true := inv.exited_stop (by rw [hd.2]; omega)
    constructor
    · rw [inv.stop_trans, if_pos hstop]
    · rw [inv.sent_pushed, if_pos hstop]
  · intro s s' hstep
    cases hstep with
    | push i rest hp => exact Or.inl ⟨rfl, rfl, rfl⟩
    | pop t rest hidle hq => exact Or.inl ⟨rfl, rfl, rfl⟩
    | checkExit t ht hstop => exact Or.inl ⟨rfl, rfl, rfl⟩
    | checkRun t ht hstop => exact Or.inl ⟨rfl, rfl, rfl⟩
    | execReal i ht =>
        rcases tf_stop_cases nw
            { s with
              executing := s.executing.erase (QTask.real i)
              idle := s.idle + 1
              executed := i ::ₘ s.executed
              errors := if fe i then i ::ₘ s.errors else s.errors
              forwarded := if hasNext then i ::ₘ s.forwarded else s.forwarded }
          with hc | hc
        · exact Or.inl hc
        · exact Or.inr ⟨hc.1, hc.2.1, hc.2.2.1, hc.2.2.2.1, hc.2.2.2.2,
            tf_decrements nw _⟩
    | execSentinel ht =>
        rcases tf_stop_cases nw
            { s with
              executing := s.executing.erase QTask.sentinel
              idle := s.idle + 1 }
          with hc | hc
        · exact Or.inl hc
        · exact Or.inr ⟨hc.1, hc.2.1, hc.2.2.1, hc.2.2.2.1, hc.2.2.2.2,
            tf_decrements nw _⟩

/-- C9. Sentinels are never counted as tasks: in every reachable state
the number of counter decrements equals the number of user-function
invocations (a sentinel closure is never executed, hence never calls
`taskFinished`), and under the exact-count precondition built into
`initState` the counter never becomes negative. -/
theorem sentinels_not_counted
    (fe : Int → Bool) (hasNext : Bool) (nw : Nat) (ps : List Int) (s : PoolState)
    (h : Reach fe hasNext nw (initState ps nw) s) :
    0 ≤ s.counter ∧ s.decrements = Multiset.card s.executed ∧
      QTask.sentinel ∉ s.executing := by
  have inv := inv_reach h
  refine ⟨?_, inv.decr_eq, inv.no_sent_exec⟩
  have hcard : Multiset.card s.executed ≤ ps.length := by
    have hc := Multiset.card_le_card (executed_le inv)
    rwa [Multiset.coe_card] at hc
  have hc := inv.counter_eq
  have hd := inv.decr_eq
  omega

/-! ## A concrete run of the pool model

One worker, one pushed index `5`, a linked downstream stage, and a user
function that raises on every index. -/

/-- A user function that raises on every index. -/
def feW : Int → Bool := fun _ => true

/-- The state after the full run: push, pop, stop check, wrapper
execution (which records the error, forwards, decrements to zero and
pushes the sentinel), sentinel pop, worker exit. -/
def wFinal : PoolState :=
  { pending := [], queue := [], counter := 0, stopped := true, idle := 0,
    popped := 0, executing := 0, exited := 1, executed := {5}, errors := {5},
    forwarded := {5}, dropped := {QTask.sentinel}, decrements := 1,
    sentinelsPushed := 1, stopTransitions := 1 }

theorem reach_wFinal : Reach feW true 1 (initState [5] 1) wFinal := by
  refine Relation.ReflTransGen.head (Step.push _ 5 [] rfl) ?_
  refine Relation.ReflTransGen.head (Step.pop _ (QTask.real 5) [] (by decide) rfl) ?_
  refine Relation.ReflTransGen.head (Step.checkRun _ (QTask.real 5) (by decide) rfl) ?_
  refine Relation.ReflTransGen.head (Step.execReal _ 5 (by decide)) ?_
  refine Relation.ReflTransGen.head (Step.pop _ QTask.sentinel [] (by decide) (by decide)) ?_
  refine Relation.ReflTransGen.head (Step.checkExit _ QTask.sentinel (by decide) (by decide)) ?_
  exact Relation.ReflTransGen.refl

theorem drained_wFinal : Drained 1 wFinal :=
  ⟨rfl, rfl⟩

/-- C1 witness: the concrete run drains with exactly one invocation of
the (raising) user function and exactly one counter decrement. -/
theorem exactly_once_accounting_witness :
    wFinal.executed = (↑[(5 : Int)] : Multiset Int) ∧
      wFinal.decrements = [(5 : Int)].length :=
  exactly_once_accounting feW true 1 [5] wFinal reach_wFinal drained_wFinal

/-- C2 witness: in the concrete run the failing index is still forwarded
downstream exactly once. -/
theorem downstream_conservation_witness :
    wFinal.forwarded = (↑[(5 : Int)] : Multiset Int) :=
  downstream_conservation feW 1 [5] wFinal reach_wFinal drained_wFinal

/-- The state after the first step of the concrete run: the producer
push of index 5. -/
def wPush : PoolState :=
  { initState [5] 1 with
    pending := [], queue := (initState [5] 1).queue ++ [QTask.real 5] }

/-- C6 witness: the concrete drained run performed one stop transition
and one sentinel push, and the first step of the run (a producer push)
touches none of the shutdown state. -/
theorem shutdown_signalling_witness :
    (wFinal.stopTransitions = 1 ∧ wFinal.sentinelsPushed = 1) ∧
      ((wPush.stopped = (initState [5] 1).stopped ∧
        wPush.stopTransitions = (initState [5] 1).stopTransitions ∧
        wPush.sentinelsPushed = (initState [5] 1).sentinelsPushed) ∨
       ((initState [5] 1).stopped = false ∧ wPush.stopped = true ∧
        wPush.counter = 0 ∧
        wPush.stopTransitions = (initState [5] 1).stopTransitions + 1 ∧
        wPush.sentinelsPushed = (initState [5] 1).sentinelsPushed + 1 ∧
        wPush.decrements = (initState [5] 1).decrements + 1)) :=
  ⟨(shutdown_signalling feW true 1).1 [5] wFinal reach_wFinal drained_wFinal
      (by decide),
   (shutdown_signalling feW true 1).2 (initState [5] 1) wPush
      (Step.push (initState [5] 1) 5 [] rfl)⟩

/-- C9 witness: along the concrete run the counter stayed non-negative
and only the executed wrapper decremented it. -/
theorem sentinels_not_counted_witness :
    0 ≤ wFinal.counter ∧ wFinal.decrements = Multiset.card wFinal.executed ∧
      QTask.sentinel ∉ wFinal.executing :=
  sentinels_not_counted feW true 1 [5] wFinal reach_wFinal

/-! ## C3: drain-time error surfacing -/

theorem str_append_assoc (a b c : String) : a ++ b ++ c = a ++ (b ++ c) :=
  String.ext (by simp)

theorem join_cons (s : String) (l : List String) :
    String.join (s :: l) = s ++ String.join l :=
  String.ext (by simp)

/-- Every entry of a summary block appears in its join, in the format
`Stage '<name>', task <index>: <error-kind>: <message>`. -/
theorem join_contains_entry (l : List ExcEntry) (x : ExcEntry) (hx : x ∈ l) :
    ∃ pre post, String.join (l.map entryLine) = pre ++ entryCore x ++ post := by
  induction l with
  | nil => cases hx
  | cons y ys ih =>
      rcases List.mem_cons.1 hx with h | h
      · subst h
        refine ⟨"  - ", "\n" ++ String.join (ys.map entryLine), ?_⟩
        rw [List.map_cons, join_cons, entryLine]
        simp [str_append_assoc]
      · obtain ⟨pre, post, hj⟩ := ih h
        refine ⟨entryLine y ++ pre, post, ?_⟩
        rw [List.map_cons, join_cons, hj]
        simp [str_append_assoc]

/-- The shape of a non-empty summary: count header, the first five
entries, and a trailer when more than five failed. -/
theorem summary_shape (p : List ExcEntry) (hp : p ≠ []) :
    getExceptionSummary p =
      toString p.length ++ " task(s) failed in pipeline:\n"
        ++ String.join ((p.take 5).map entryLine)
        ++ (if 5 < p.length then
              "  ... and " ++ toString (p.length - 5) ++ " more errors\n"
            else "") := by
  unfold getExceptionSummary
  rw [if_neg (by simpa using hp)]
  split_ifs with h
  · simp [str_append_assoc]
  · simp [String.append_empty]

/-- C3. Drain-time error surfacing: `wait()`/`run()` returns normally
iff the shared pipeline holds no recorded error; with at least one error
it raises a single failure whose payload is the summary and whose cause
is the first recorded error; the payload contains the failure count and
each of the first five entries formatted as
`Stage '<name>', task <index>: <error-kind>: <message>`. -/
theorem drain_error_surfacing :
    (∀ p : List ExcEntry, stageWaitCheck p = WaitResult.ok ↔ p = []) ∧
    (∀ (e : ExcEntry) (rest : List ExcEntry),
        stageWaitCheck (e :: rest) =
          WaitResult.failure (getExceptionSummary (e :: rest)) e) ∧
    (∀ (p : List ExcEntry) (x : ExcEntry), p ≠ [] → x ∈ p.take 5 →
        ∃ pre post, getExceptionSummary p = pre ++ entryCore x ++ post) ∧
    (∀ p : List ExcEntry, p ≠ [] →
        ∃ post, getExceptionSummary p =
          toString p.length ++ (" task(s) failed in pipeline:\n" ++ post)) := by
  refine ⟨?_, ?_, ?_, ?_⟩
  · intro p
    cases p <;> simp [stageWaitCheck, hasExceptions]
  · intro e rest
    simp [stageWaitCheck, hasExceptions]
  · intro p x hp hx
    obtain ⟨pre, post, hj⟩ := join_contains_entry (p.take 5) x hx
    refine ⟨toString p.length ++ " task(s) failed in pipeline:\n" ++ pre,
      post ++ (if 5 < p.length then
          "  ... and " ++ toString (p.length - 5) ++ " more errors\n"
        else ""), ?_⟩
    rw [summary_shape p hp, hj]
    simp [str_append_assoc]
  · intro p hp
    refine ⟨String.join ((p.take 5).map entryLine)
        ++ (if 5 < p.length then
              "  ... and " ++ toString (p.length - 5) ++ " more errors\n"
            else ""), ?_⟩
    rw [summary_shape p hp]
    simp [str_append_assoc]

/-- A concrete failing pipeline with two recorded errors. -/
def excA : ExcEntry :=
  { stage := "TestStage", index := 5, kind := "ValueError",
    msg := "Task 5 intentionally failed!" }

/-- A second concrete recorded error. -/
def excB : ExcEntry :=
  { stage := "B", index := 3, kind := "ZeroDivisionError",
    msg := "division by zero" }

/-- C3 witness: on the concrete two-error pipeline, `wait` raises with
the summary and `excA` as cause, the payload contains both formatted
entries and the count, and the empty pipeline returns normally. -/
theorem drain_error_surfacing_witness :
    (stageWaitCheck [] = WaitResult.ok ↔ ([] : List ExcEntry) = []) ∧
    stageWaitCheck [excA, excB] =
      WaitResult.failure (getExceptionSummary [excA, excB]) excA ∧
    (∃ pre post,
        getExceptionSummary [excA, excB] = pre ++ entryCore excB ++ post) ∧
    (∃ post, getExceptionSummary [excA, excB] =
        toString ([excA, excB].length) ++ (" task(s) failed in pipeline:\n" ++ post)) :=
  ⟨drain_error_surfacing.1 [],
   drain_error_surfacing.2.1 excA [excB],
   drain_error_surfacing.2.2.1 [excA, excB] excB (by decide) (by decide),
   drain_error_surfacing.2.2.2 [excA, excB] (by decide)⟩

/-! ## C5: the `setCapacity` precondition actually enforced -/

/-- A queue that has been pushed to once and drained back to empty. -/
def drainedQueue : BTQueue Unit :=
  match ((BTQueue.new Unit 20).pushTask ()).popTask with
  | some (_, q) => q
  | none => BTQueue.new Unit 20

/-- C5. Evaluation at the failing input: a queue that was pushed to and
drained back to empty (`everPushed = true`, `tasks = []`) is accepted by
`setCapacity`, which installs the new capacity instead of failing with
InvalidState as the claim requires; only a currently non-empty queue is
rejected. -/
theorem setCapacity_drained_accepts :
    drainedQueue.everPushed = true ∧ drainedQueue.tasks = [] ∧
    ((BTQueue.new Unit 20).pushTask ()).popTask = some ((), drainedQueue) ∧
    drainedQueue.setCapacity 5 =
      Except.ok { capacity := 5, tasks := [], everPushed := true } ∧
    ((BTQueue.new Unit 20).pushTask ()).setCapacity 5 =
      Except.error TQError.invalidState :=
  ⟨rfl, rfl, rfl, rfl, rfl⟩

/-! ## C7: what a second `wait()` actually does -/

/-- C7 counterexample: with one recorded error, the first `wait()`
raises, the pipeline is unchanged, and the second `wait()` raises the
very same failure again — it does re-raise. -/
theorem second_wait_reraises :
    (stageWait [excA]).1 ≠ WaitResult.ok ∧
    (stageWait (stageWait [excA]).2).1 ≠ WaitResult.ok ∧
    (stageWait (stageWait [excA]).2).1 = (stageWait [excA]).1 := by
  refine ⟨?_, ?_, rfl⟩ <;>
    simp [stageWait, stageWaitCheck, hasExceptions]

/-- C7 (amended): `wait()` never mutates the pipeline, so a second call
on a drained stage returns exactly the first call's result — normally
iff no error was recorded, and otherwise it raises the identical failure
(same summary, same cause) again. -/
theorem idempotent_drain (p : List ExcEntry) :
    stageWait ((stageWait p).2) = stageWait p ∧
    ((stageWait p).1 = WaitResult.ok ↔ p = []) := by
  constructor
  · rfl
  · cases p <;> simp [stageWait, stageWaitCheck, hasExceptions]

/-! ## C8: `setTaskCount` performs no validation -/

/-- C8 counterexample: `setTaskCount(-1)` does not raise; it silently
stores the negative count. -/
theorem setTaskCount_negative_no_raise :
    setTaskCountModel (-1) = Except.ok (-1) ∧
    setTaskCountModel (-1) ≠ Except.error TQError.invalidState :=
  ⟨rfl, by simp [setTaskCountModel]⟩

/-- C8 (amended): `setTaskCount(n)` accepts every integer, including
negative ones, storing it unvalidated into `task_counter[0]` and raising
no error at the call. -/
theorem setTaskCount_no_validation (n : Int) :
    setTaskCountModel n = Except.ok n ∧
    setTaskCountModel n ≠ Except.error TQError.invalidState := by
  exact ⟨rfl, by simp [setTaskCountModel]⟩

/-! ## C10: non-positive capacity is accepted and means unbounded -/

/-- C10. A `BoundedTaskQueue` (hence a `Stage` queue) constructed with
any capacity, including non-positive ones, is accepted; `setCapacity`
performs no range check on an empty queue; and with `capacity <= 0` the
underlying `queue.Queue` is unbounded, so `put` never blocks. -/
theorem nonpositive_capacity_unbounded :
    (∀ c : Int, (BTQueue.new Unit c).capacity = c ∧
        (BTQueue.new Unit c).tasks = []) ∧
    (∀ (q : BTQueue Unit) (c : Int), q.tasks = [] →
        q.setCapacity c =
          Except.ok { capacity := c, tasks := [], everPushed := q.everPushed }) ∧
    (∀ q : BTQueue Unit, q.capacity ≤ 0 → q.pushWouldBlock = false) := by
  refine ⟨fun c => ⟨rfl, rfl⟩, ?_, ?_⟩
  · intro q c h
    simp [BTQueue.setCapacity, h]
  · intro q h
    have hc : ¬(0 < q.capacity) := by omega
    simp [BTQueue.pushWouldBlock, hc]

/-- C10 witness: capacity `-3` is accepted at construction, `0` at
`setCapacity` on a fresh queue, and a capacity-0 queue holding a task
still admits a producer without blocking. -/
theorem nonpositive_capacity_unbounded_witness :
    ((BTQueue.new Unit (-3)).capacity = -3 ∧
      (BTQueue.new Unit (-3)).tasks = []) ∧
    ((BTQueue.new Unit 20).setCapacity 0 =
      Except.ok { capacity := 0, tasks := [], everPushed := false }) ∧
    ((BTQueue.new Unit 0).pushTask ()).pushWouldBlock = false :=
  ⟨nonpositive_capacity_unbounded.1 (-3),
   nonpositive_capacity_unbounded.2.1 (BTQueue.new Unit 20) 0 rfl,
   nonpositive_capacity_unbounded.2.2 ((BTQueue.new Unit 0).pushTask ())
     (by decide)⟩

/-! ## C4: `chain` and shared-Pipeline unification

Stages are identified by numbers; `Pipeline()` objects by allocation
numbers, so pipeline equality below is Python object identity. -/

/-- The stage graph seen by `chain`: the `next` link and the `_pipeline`
attribute of every stage (`none` = not yet created), plus the allocator
for fresh `Pipeline()` objects. -/
structure StageGraph where
  next : Nat → Option Nat
  pipe : Nat → Option Nat
  fresh : Nat

/-- The `pipeline` property getter: return the held pipeline, or lazily
allocate a fresh one, store it and return it. -/
def getPipeline (g : StageGraph) (a : Nat) : Nat × StageGraph :=
  match g.pipe a with
  | some p => (p, g)
  | none =>
      (g.fresh,
        { g with
          pipe := fun x => if x = a then some g.fresh else g.pipe x
          fresh := g.fresh + 1 })

/-- The unification loop of `chain`: from `current`, follow `next` links
setting each visited pipeline attribute to `p` (the value of
`stage_a.pipeline`, which every iteration re-reads unchanged).  `fuel`
bounds the walk; the source loop terminates because chains are acyclic. -/
def chainWalk (fuel : Nat) (g : StageGraph) (current : Option Nat) (p : Nat) :
    StageGraph :=
  match fuel, current with
  | 0, _ => g
  | _ + 1, none => g
  | f + 1, some c =>
      chainWalk f
        { g with pipe := fun x => if x = c then some p else g.pipe x }
        (g.next c) p

/-- The graph after `stage_a.next = stage_b`, the first statement of
`chain`. -/
def chainG1 (g : StageGraph) (a b : Nat) : StageGraph :=
  { g with next := fun x => if x = a then some b else g.next x }

/-- The value of `stage_b.pipeline` read in the guard of `chain`
(evaluated first, possibly allocating). -/
def chainPb (g : StageGraph) (a b : Nat) : Nat :=
  (getPipeline (chainG1 g a b) b).1

/-- The graph after reading `stage_b.pipeline`. -/
def chainG2 (g : StageGraph) (a b : Nat) : StageGraph :=
  (getPipeline (chainG1 g a b) b).2

/-- The value of `stage_a.pipeline` read in the guard of `chain`
(evaluated second, possibly allocating). -/
def chainPa (g : StageGraph) (a b : Nat) : Nat :=
  (getPipeline (chainG2 g a b) a).1

/-- The graph after both pipeline reads of the guard. -/
def chainG3 (g : StageGraph) (a b : Nat) : StageGraph :=
  (getPipeline (chainG2 g a b) a).2

/-- `chain(stage_a, stage_b)`: set `a.next = b`; read `b.pipeline` and
`a.pipeline` through the lazily-creating getter; if they are not the
same object, rewrite the pipeline of `b` and of every stage reachable
from `b` to `a.pipeline`; return `b`. -/
def chainModel (fuel : Nat) (g : StageGraph) (a b : Nat) : Nat × StageGraph :=
  if chainPb g a b ≠ chainPa g a b then
    (b, chainWalk fuel (chainG3 g a b) (some b) (chainPa g a b))
  else (b, chainG3 g a b)

/-- The stages visited by the unification loop, determined by the `next`
links alone. -/
def walkList (g : StageGraph) : Nat → Option Nat → List Nat
  | 0, _ => []
  | _ + 1, none => []
  | f + 1, some c => c :: walkList g f (g.next c)

theorem getPipeline_next (g : StageGraph) (a : Nat) :
    (getPipeline g a).2.next = g.next := by
  unfold getPipeline
  split <;> rfl

theorem chainWalk_next (fuel : Nat) (g : StageGraph) (c : Option Nat) (p : Nat) :
    (chainWalk fuel g c p).next = g.next := by
  induction fuel generalizing g c with
  | zero => rfl
  | succ f ih =>
      cases c with
      | none => rfl
      | some c0 => exact ih _ _

theorem walkList_congr (g g' : StageGraph) (hn : g.next = g'.next) :
    ∀ (fuel : Nat) (c : Option Nat), walkList g fuel c = walkList g' fuel c := by
  intro fuel
  induction fuel with
  | zero => intro c; rfl
  | succ f ih =>
      intro c
      cases c with
      | none => rfl
      | some c0 => simp [walkList, hn, ih]

/-- The walk never un-sets a pipeline already equal to `p`. -/
theorem chainWalk_preserves (fuel : Nat) (g : StageGraph) (c : Option Nat)
    (p x : Nat) (hx : g.pipe x = some p) :
    (chainWalk fuel g c p).pipe x = some p := by
  induction fuel generalizing g c with
  | zero => exact hx
  | succ f ih =>
      cases c with
      | none => exact hx
      | some c0 =>
          apply ih
          dsimp only
          split <;> simp [hx]

/-- Every stage visited by the walk ends up holding pipeline `p`. -/
theorem chainWalk_sets (fuel : Nat) (g : StageGraph) (c : Option Nat)
    (p x : Nat) (hx : x ∈ walkList g fuel c) :
    (chainWalk fuel g c p).pipe x = some p := by
  induction fuel generalizing g c with
  | zero => cases hx
  | succ f ih =>
      cases c with
      | none => cases hx
      | some c0 =>
          rcases List.mem_cons.1 hx with h | h
          · subst h
            rw [chainWalk]
            apply chainWalk_preserves
            dsimp only
            simp
          · rw [chainWalk]
            refine ih _ _ ?_
            rwa [walkList_congr _ g (by rfl) f (g.next c0)]

/-- The initial stage graph of the order-independence scenario: three
freshly constructed stages `0 = a`, `1 = b`, `2 = c`, no links, no
pipeline objects allocated yet. -/
def g3Stages : StageGraph :=
  { next := fun _ => none, pipe := fun _ => none, fresh := 0 }

/-- C4. `chain(a, b)` returns `b` and sets `a.next = b` (first
conjunct); whenever its guard finds the two pipelines distinct, every
stage visited by the unification walk from `b` ends up holding the
pipeline object of `a` (second conjunct); and in the concrete
order-independent scenario — `chain(b, c)` first, `chain(a, b)` second —
stages `a`, `b`, `c` all hold the identical pipeline object (third
conjunct). -/
theorem chain_order_independent :
    (∀ (fuel : Nat) (g : StageGraph) (a b : Nat),
        (chainModel fuel g a b).1 = b ∧
        (chainModel fuel g a b).2.next a = some b) ∧
    (∀ (fuel : Nat) (g : StageGraph) (a b : Nat),
        chainPb g a b ≠ chainPa g a b →
        ∀ x ∈ walkList (chainG3 g a b) fuel (some b),
          (chainModel fuel g a b).2.pipe x = some (chainPa g a b)) ∧
    ((chainModel 3 (chainModel 3 g3Stages 1 2).2 0 1).1 = 1 ∧
      (chainModel 3 (chainModel 3 g3Stages 1 2).2 0 1).2.next 0 = some 1 ∧
      (chainModel 3 (chainModel 3 g3Stages 1 2).2 0 1).2.next 1 = some 2 ∧
      (chainModel 3 (chainModel 3 g3Stages 1 2).2 0 1).2.pipe 0 = some 2 ∧
      (chainModel 3 (chainModel 3 g3Stages 1 2).2 0 1).2.pipe 1 = some 2 ∧
      (chainModel 3 (chainModel 3 g3Stages 1 2).2 0 1).2.pipe 2 = some 2) := by
  refine ⟨?_, ?_, ?_⟩
  · intro fuel g a b
    constructor
    · unfold chainModel
      split <;> rfl
    · unfold chainModel
      split
      · rw [chainWalk_next]
        show (chainG3 g a b).next a = some b
        unfold chainG3 chainG2
        rw [getPipeline_next, getPipeline_next]
        show (chainG1 g a b).next a = some b
        unfold chainG1
        simp
      · show (chainG3 g a b).next a = some b
        unfold chainG3 chainG2
        rw [getPipeline_next, getPipeline_next]
        show (chainG1 g a b).next a = some b
        unfold chainG1
        simp
  · intro fuel g a b hne x hx
    unfold chainModel
    rw [if_pos hne]
    exact chainWalk_sets fuel (chainG3 g a b) (some b) (chainPa g a b) x hx
  · refine ⟨rfl, ?_, ?_, ?_, ?_, ?_⟩ <;> decide

/-- C4 witness: the generic conjuncts instantiated on the concrete
scenario: the first call `chain(b, c)` on the fresh three-stage graph
returns `c`, links `b` to `c`, and its walk rewrites `c` to hold `b`'s
pipeline object. -/
theorem chain_order_independent_witness :
    ((chainModel 3 g3Stages 1 2).1 = 2 ∧
      (chainModel 3 g3Stages 1 2).2.next 1 = some 2) ∧
    (chainModel 3 g3Stages 1 2).2.pipe 2 = some (chainPa g3Stages 1 2) :=
  ⟨chain_order_independent.1 3 g3Stages 1 2,
   chain_order_independent.2.1 3 g3Stages 1 2 (by decide) 2 (by decide)⟩

end TaskQueue
